import Mathlib

/-!
# Verification of the SME tax-compliance simulation core

Shallow embedding, over `ℚ`, of the simulation engine of the
`h2_belastingdienst` repository (files `src/agents.py` and
`src/model_final.py`, plus the run-end summary of `src/report_results.py`),
together with proofs and refutations of the frozen specification claims.

Modelling conventions:
* Python floats are embedded as rationals; all claimed properties are exact
  structural facts (clipping, resets, branch guards, calibration identities),
  not facts about rounding of IEEE arithmetic.
* The seeded `numpy` generator `self.rng` is embedded as an explicit stream of
  draws (`Rng`, a list of rationals consumed front to back; an exhausted
  stream yields `0`).  Every call of `rng.random()` consumes the next value of
  the one shared stream, in call order, exactly as in the source.  Draws of
  `rng.beta` are values in `[0,1]` (the support of the Beta distribution).
* Fallible Python code (attribute errors, `NameError` for the missing `math`
  import, `KeyError`, `IndexError`, `ZeroDivisionError`) is embedded in
  `Except String`.
-/

namespace Belasting

/- The library marks the arithmetic of `ℚ` irreducible, which blocks
kernel evaluation of concrete programs over `ℚ` by `decide`; the
counterexamples and witnesses below evaluate the embedded code on concrete
inputs, so the marker is lifted for this file (the kernel itself never
depended on it). -/
set_option allowUnsafeReducibility true

attribute [local semireducible] Rat.mul Rat.add Rat.sub Rat.inv

instance {ε α : Type} [DecidableEq ε] [DecidableEq α] : DecidableEq (Except ε α) :=
  fun x y =>
    match x, y with
    | Except.error a, Except.error b =>
      if h : a = b then Decidable.isTrue (h ▸ rfl)
      else Decidable.isFalse (fun hh => h (Except.error.inj hh))
    | Except.ok a, Except.ok b =>
      if h : a = b then Decidable.isTrue (h ▸ rfl)
      else Decidable.isFalse (fun hh => h (Except.ok.inj hh))
    | Except.error _, Except.ok _ => Decidable.isFalse (fun hh => Except.noConfusion hh)
    | Except.ok _, Except.error _ => Decidable.isFalse (fun hh => Except.noConfusion hh)

/-- Python's `min` on two numbers, in the executable form the kernel can
evaluate on rational literals. -/
def pymin (a b : ℚ) : ℚ := if a ≤ b then a else b

/-- Python's `max` on two numbers, executable. -/
def pymax (a b : ℚ) : ℚ := if a ≤ b then b else a

lemma pymin_eq_min (a b : ℚ) : pymin a b = min a b := by
  rw [pymin, min_def]

lemma pymax_eq_max (a b : ℚ) : pymax a b = max a b := by
  rw [pymax, max_def]

/-- Python's `min` on two integers, executable. -/
def pyminI (a b : ℤ) : ℤ := if a ≤ b then a else b

/-- The floor of a rational, in executable form (floor division of the
numerator by the positive denominator). -/
def ratFloor (q : ℚ) : ℤ := Int.fdiv q.num (q.den : ℤ)

/-- `clip01` from `src/agents.py` lines 15-19 (identical copy in
`src/model_final.py` lines 23-27): clamp a value into `[0,1]`. -/
def clip01 (x : ℚ) : ℚ := pymax 0 (pymin 1 x)

/-- The seeded random stream (`self.rng = np.random.default_rng(seed=seed)`,
`src/model_final.py` line 103).  A list of the successive uniform draws in
`[0,1)`; an exhausted stream keeps yielding `0`. -/
abbrev Rng : Type := List ℚ

/-- One call of `rng.random()`: consume the next draw of the stream. -/
def Rng.next (r : Rng) : ℚ × Rng :=
  match r with
  | [] => (0, [])
  | d :: rest => (d, rest)

/-- Agent state, `SMEAgent.__init__` from `src/agents.py` lines 22-63.
`audited_last_step` is the attribute first created at the end of
`SMEAgent.step` (line 170); `comm_sensitivity` is read in the
high-urgency branch (lines 162-166) but never initialized anywhere, so both
are `Option`s that start out `none`. -/
structure SMEAgent where
  size_cat : String
  age_cat : String
  propensity : ℚ
  turnover : ℚ
  tax_rate : ℚ
  has_advisor : Bool
  current_commun : ℚ := 0
  audit_impact : ℚ := 0
  last_audit_step : ℤ := -999
  audited_last_step : Option ℚ := none
  comm_sensitivity : Option ℚ := none
deriving DecidableEq

/-- The model-level fields read by `SMEAgent.step` / `SMEAgent.communicate`
(`self.model.…` accesses in `src/agents.py`). -/
structure StepCtx where
  current_commun : ℚ
  sector_warnings : List ((String × String) × ℚ)
  decay_factor : ℚ
  is_high_urgency_week : Bool
  step_count : ℕ
  current_week : ℕ
deriving DecidableEq

/-- Python `dict` lookup (`d[k]` / `d.get(k)`); keys are compared for
equality, first match wins (keys of a dict are unique). -/
def dictGet {α β : Type} [DecidableEq α] (k : α) : List (α × β) → Option β
  | [] => none
  | (k', v) :: rest => if k = k' then some v else dictGet k rest

/-- The neighbor loop of `SMEAgent.communicate`, `src/agents.py` lines 84-104.
`cells` is `self.cell.neighborhood`: each entry is one neighboring network
cell, holding the indices (into the model's agent list) of the agents in that
cell; `neighbor.agents[0]` raises `IndexError` on an empty cell.  The branch
for `48 < time_since_audit < 105` calls `math.log`, but `math` is never
imported in `src/agents.py`, so reaching it raises `NameError`. -/
def commLoop (agents : List SMEAgent) (ctx : StepCtx) :
    List (List ℕ) → ℚ → Rng → Except String (ℚ × Rng)
  | [], acc, rng => Except.ok (acc, rng)
  | cell :: rest, acc, rng =>
    match cell with
    | [] => Except.error ("IndexError: list index out of range")
    | j :: _ =>
      match agents[j]? with
      | none => Except.error ("invalid agent reference")
      | some communicator =>
        let t : ℤ := communicator.last_audit_step - (ctx.step_count : ℤ)
        if t = 1 then
          commLoop agents ctx rest (acc + 1/2000) rng
        else if 48 < t ∧ t < 105 then
          Except.error ("NameError: name math is not defined")
        else
          let (d1, rng1) := rng.next
          if d1 < ((52 : ℚ) - (ctx.current_week : ℚ)) / 52 then
            commLoop agents ctx rest
              (acc + (1/200000) * ((52 : ℚ) - (ctx.current_week : ℚ))) rng1
          else
            let (d2, rng2) := rng1.next
            if d2 < 1/52 then
              commLoop agents ctx rest (acc + 1/2000000) rng2
            else
              commLoop agents ctx rest acc rng2

/-- `SMEAgent.communicate`, `src/agents.py` lines 65-105: the self shock of
lines 81-82 followed by the neighbor loop. -/
def communicateFn (a : SMEAgent) (ctx : StepCtx) (agents : List SMEAgent)
    (cells : List (List ℕ)) (rng : Rng) : Except String (ℚ × Rng) :=
  let base : ℚ :=
    if (ctx.step_count : ℤ) - a.last_audit_step = 1 then 0 - 1/2 else 0
  commLoop agents ctx cells base rng

/-- `SMEAgent.step`, `src/agents.py` lines 107-170.  Note two facts carried
over verbatim from the source: the high-urgency branch multiplies the never
initialized `comm_sensitivity` (an `AttributeError` when it is `none`), and
the final "reset" writes `audited_last_step = 0` — it does NOT reset
`audit_impact`. -/
def stepAgent (a : SMEAgent) (ctx : StepCtx) (agents : List SMEAgent)
    (cells : List (List ℕ)) (rng : Rng) : Except String (SMEAgent × Rng) :=
  let audit_effect := a.audit_impact
  let global_comm := ctx.current_commun
  let targeted_comm := (dictGet (a.size_cat, a.age_cat) ctx.sector_warnings).getD 0
  match communicateFn a ctx agents cells rng with
  | Except.error e => Except.error e
  | Except.ok (inter_comm, rng1) =>
    let d := global_comm + targeted_comm + inter_comm
    let base_decay := ctx.decay_factor
    let decay := if a.has_advisor then base_decay * (19/20) else base_decay * (21/20)
    let improvement := (1 - a.propensity) * (audit_effect + d)
    let deterioration := a.propensity * decay
    let p1 := clip01 (a.propensity + improvement - deterioration)
    if ctx.is_high_urgency_week then
      match a.comm_sensitivity with
      | none => Except.error ("AttributeError: SMEAgent object has no attribute comm_sensitivity")
      | some c =>
        let c1 := pymin (c * (21/20)) 2
        Except.ok ({ a with propensity := p1, comm_sensitivity := some c1, audited_last_step := some 0 }, rng1)
    else
      Except.ok ({ a with propensity := p1, audited_last_step := some 0 }, rng1)

/-- Propensity assignment at population construction,
`src/model_final.py` lines 214-223: a group mean `mu` at or below `0`
(respectively at or above `1`) fixes the propensity at that bound, otherwise
the propensity is the Beta(`kappa*mu`, `kappa*(1-mu)`) draw `betaDraw`
(a value in the support `[0,1]` of that distribution). -/
def initPropensity (mu : ℚ) (betaDraw : ℚ) : ℚ :=
  if mu ≤ 0 then 0
  else if mu ≥ 1 then 1
  else betaDraw

/-- The advisor nudge applied to the group mean before the Beta draw,
`src/model_final.py` lines 208-212. -/
def nudgedMu (mu : ℚ) (has_advisor : Bool) : ℚ :=
  if has_advisor then pymin 1 (mu + 1/50) else pymax 0 (mu - 1/50)

/-- `compute_group_mean`, `src/model_final.py` lines 30-46: mean propensity of
the agents of one (size, age[, advisor]) group; `0.0` for an empty group. -/
def computeGroupMean (agents : List SMEAgent) (s a : String)
    (adv : Option Bool) : ℚ :=
  let ps := (agents.filter (fun x =>
      x.size_cat == s && x.age_cat == a &&
        (match adv with | none => true | some b => x.has_advisor == b))).map
    (fun x => x.propensity)
  if ps = [] then 0 else ps.sum / (ps.length : ℚ)

/-- `_agent_liability`, `src/model_final.py` lines 280-281. -/
def liability (a : SMEAgent) : ℚ := a.turnover * a.tax_rate

/-- Total liability `sum L` appearing in the denominators of
`compute_weighted_noncompliance` and `compute_tax_gap_rate`. -/
def totalLiability (agents : List SMEAgent) : ℚ := (agents.map liability).sum

/-- `compute_weighted_noncompliance`, `src/model_final.py` lines 287-296:
liability-weighted non-compliance, `0.0` when the total liability is not
positive. -/
def weightedNoncompliance (agents : List SMEAgent) : ℚ :=
  let totalLp := (agents.map (fun a => liability a * (1 - a.propensity))).sum
  if 0 < totalLiability agents then totalLp / totalLiability agents else 0

/-- `compute_noncompliance_ratio`, `src/model_final.py` lines 283-285:
`np.mean` of `1 - propensity`. -/
def noncomplianceMean (agents : List SMEAgent) : ℚ :=
  (agents.map (fun a => 1 - a.propensity)).sum / (agents.length : ℚ)

/-- `compute_tax_gap_rate`, `src/model_final.py` lines 309-316, with
`expected_unpaid_tax` (lines 298-303) inlined: the underpayment intensity is
`underpayment_mean_if_noncompliant or 0.0`, i.e. `0` when it is `None`. -/
def taxGapRate (agents : List SMEAgent) (underpayment : Option ℚ) : ℚ :=
  let u := underpayment.getD 0
  let unpaid := (agents.map (fun a => liability a * (1 - a.propensity) * u)).sum
  if 0 < totalLiability agents then unpaid / totalLiability agents else 0

/-- Step 2 of `_calibrate_tax_gap_link`, `src/model_final.py` lines 338-345
(step 1 is commented out in the source): when no underpayment intensity is
given, set `u = 0` if the weighted non-compliance is not positive, otherwise
`u = clip(target / weighted_noncompliance, 0, 1)`. -/
def calibrateU (agents : List SMEAgent) (target : ℚ) (given : Option ℚ) :
    Option ℚ :=
  match given with
  | some u => some u
  | none =>
    let w := weightedNoncompliance agents
    if w ≤ 0 then some 0
    else some (pymax 0 (pymin 1 (target / w)))

/-- `np.mean` of the agents' propensities (the "Mean Propensity" model
reporter, `src/model_final.py` lines 267-269). -/
def meanPropensity (agents : List SMEAgent) : ℚ :=
  (agents.map (fun a => a.propensity)).sum / (agents.length : ℚ)

/-- The run-end ROI computation of `src/report_results.py` line 256:
`roi_ratio = reduction / total_cost`, with Python float-division semantics —
a zero divisor raises `ZeroDivisionError`, there is no guard. -/
def roiResult (reduction total_cost : ℚ) : Except String ℚ :=
  if total_cost = 0 then Except.error ("ZeroDivisionError: float division by zero")
  else Except.ok (reduction / total_cost)

/-- Python 3 `round` to an integer (banker's rounding, halves to even), as
used in `int(round(current_rate * n_total))`, `src/model_final.py` line 382. -/
def pyRound (q : ℚ) : ℤ :=
  let f := ratFloor q
  let r := q - (f : ℚ)
  if r < 1/2 then f
  else if (1:ℚ)/2 < r then f + 1
  else if f % 2 = 0 then f else f + 1

/-- Index picked by one uniform draw `d` from a list of length `n`
(models `rng.choice` on a list). -/
def pickIdx (n : ℕ) (d : ℚ) : ℕ := (Int.toNat (ratFloor (d * (n : ℚ)))) % n

/-- Model of `rng.choice(lst, size=n, replace=False)` (`src/model_final.py`
line 398): sampling without replacement, each pick consuming one draw of the
stream and removing the picked element. -/
def choiceNR (rng : Rng) (l : List ℕ) : ℕ → List ℕ × Rng
  | 0 => ([], rng)
  | n + 1 =>
    if l.length = 0 then ([], rng)
    else
      let (d, rng1) := rng.next
      let k := pickIdx l.length d
      let x := l.getD k 0
      let (rest, rng2) := choiceNR rng1 (l.eraseIdx k) n
      (x :: rest, rng2)

/-- Model of the in-place `rng.shuffle` (`src/model_final.py` line 404):
drawing all elements without replacement yields a permutation. -/
def shuffleR (rng : Rng) (l : List ℕ) : List ℕ × Rng := choiceNR rng l l.length

/-- Stable insertion of `x` behind all earlier entries with key not above its
key (used to model Python's stable `list.sort(key=...)`). -/
def insertByKey (f : ℕ → ℚ) (x : ℕ) : List ℕ → List ℕ
  | [] => [x]
  | y :: ys => if f y ≤ f x then y :: insertByKey f x ys else x :: y :: ys

/-- Python's stable `list.sort(key=...)` (`src/model_final.py` lines 426-428),
ascending by key. -/
def sortByKey (f : ℕ → ℚ) (l : List ℕ) : List ℕ :=
  l.foldl (fun acc x => insertByKey f x acc) []

/-- The `(size_cat, age_cat)` group key of agent `i` of the population list. -/
def keyOfIdx (agents : List SMEAgent) (i : ℕ) : String × String :=
  match agents[i]? with
  | some a => (a.size_cat, a.age_cat)
  | none => ("", "")

/-- `last_audit_step` of agent `i` of the population list. -/
def lastAuditIdx (agents : List SMEAgent) (i : ℕ) : ℤ :=
  match agents[i]? with
  | some a => a.last_audit_step
  | none => -999

/-- Helper of `dedupF`: first-occurrence deduplication, the order of the keys
of a Python dict built by `setdefault` insertions (`src/model_final.py` lines
367-370). -/
def dedupFGo (seen : List (String × String)) :
    List (String × String) → List (String × String)
  | [] => []
  | k :: rest =>
    if seen.contains k then dedupFGo seen rest
    else k :: dedupFGo (k :: seen) rest

/-- First-occurrence deduplication (see `dedupF`). -/
def dedupF (l : List (String × String)) : List (String × String) :=
  dedupFGo [] l

/-- One `SMEComplianceModel` state (`src/model_final.py`).  `agents` is the
population in creation order; `adj` holds, per agent, the neighborhood of its
network cell: a list of neighboring cells, each a list of the indices of the
agents placed in that cell (the capacity-1 `Network` of line 189 puts exactly
one agent in each cell).  Configuration tables are association lists, exactly
the dicts handed to `__init__`.  `collected` is the `DataCollector` history:
one row per tick of (Mean Propensity, %% Audited, Non-Compliance Ratio,
Tax Gap %%) values. -/
structure Model where
  agents : List SMEAgent
  adj : List (List (List ℕ))
  rng : Rng
  N : ℕ
  step_count : ℕ
  current_week : ℕ := 0
  current_commun : ℚ := 0
  sector_warnings : List ((String × String) × ℚ) := []
  is_high_urgency_week : Bool := false
  decay_factor : ℚ
  total_compliance_costs : ℚ := 0
  total_audited_this_step : ℚ := 0
  C_target : ℚ
  size_order : List String
  age_order : List String
  group_counts : List ((String × String) × ℕ) := []
  audit_rates : List ((String × String) × ℚ)
  audit_types : List (String × (ℚ × ℚ))
  channel_effects : List (String × ℚ)
  intervention_costs : List (String × ℚ)
  communication_schedule : List (ℤ × List String)
  tax_deadline_week : ℕ := 12
  audit_delay_weeks : ℕ := 8
  warning_visit_week : ℕ := 35
  tax_gap_target_rate : ℚ
  underpayment : Option ℚ
  collected : List (ℚ × ℚ × ℚ × ℚ) := []
deriving DecidableEq

/-- The communication block of `SMEComplianceModel.step`,
`src/model_final.py` lines 470-484: accumulate channel effects (times the
urgency multiplier) and per-agent channel costs; a channel name missing from
either table raises `KeyError`. -/
def channelFold (N : ℕ) (effects costs : List (String × ℚ)) (mult : ℚ) :
    List String → ℚ → ℚ → Except String (ℚ × ℚ)
  | [], commun, costAcc => Except.ok (commun, costAcc)
  | ch :: rest, commun, costAcc =>
    match dictGet ch effects with
    | none => Except.error ("KeyError: channel effect")
    | some e =>
      match dictGet ch costs with
      | none => Except.error ("KeyError: intervention cost")
      | some c =>
        channelFold N effects costs mult rest (commun + e * mult)
          (costAcc + (N : ℚ) * c)

/-- The targeted company-visit block of `SMEComplianceModel.step`,
`src/model_final.py` lines 495-513: every (size, age) group whose mean
propensity is below the compliance target is flagged with the
`warning_letter` effect and charged the per-member `warning_letter` cost. -/
def warnFold (agents : List SMEAgent) (Ct : ℚ) (effects costs : List (String × ℚ))
    (gcounts : List ((String × String) × ℕ)) :
    List (String × String) → List ((String × String) × ℚ) → ℚ →
    Except String (List ((String × String) × ℚ) × ℚ)
  | [], ws, costAcc => Except.ok (ws, costAcc)
  | (s, a) :: rest, ws, costAcc =>
    let gm := computeGroupMean agents s a none
    if gm < Ct then
      match dictGet ("warning_letter") effects with
      | none => Except.error ("KeyError: warning_letter")
      | some e =>
        match dictGet ("warning_letter") costs with
        | none => Except.error ("KeyError: warning_letter")
        | some c =>
          let n := (dictGet (s, a) gcounts).getD 0
          warnFold agents Ct effects costs gcounts rest (ws ++ [((s, a), e)])
            (costAcc + (n : ℚ) * c)
    else
      warnFold agents Ct effects costs gcounts rest ws costAcc

/-- The communication block of the tick (`src/model_final.py` lines
470-484): the channels scheduled for this week's distance to the deadline,
with the week-1 urgency doubling of the effect (not of the cost). -/
def schedComm (m : Model) (cw : ℕ) : Except String (ℚ × ℚ) :=
  let wud : ℤ := (m.tax_deadline_week : ℤ) - (cw : ℤ)
  match dictGet wud m.communication_schedule with
  | none => Except.ok (0, 0)
  | some channels =>
    channelFold m.N m.channel_effects m.intervention_costs
      (if wud = 1 then 2 else 1) channels 0 0

/-- The warning-visit block of the tick (`src/model_final.py` lines
487-513), active only on the configured campaign week. -/
def schedWarn (m : Model) (cw : ℕ) :
    Except String (List ((String × String) × ℚ) × ℚ) :=
  if cw = m.warning_visit_week then
    warnFold m.agents m.C_target m.channel_effects m.intervention_costs
      m.group_counts
      ((m.size_order.map (fun s => m.age_order.map (fun a => (s, a)))).flatten)
      [] 0
  else Except.ok ([], 0)

/-- Phase 1 of `SMEComplianceModel.step`, `src/model_final.py` lines 458-513:
set the week, reset the per-tick flags (`is_high_urgency_week`,
`sector_warnings`, `current_commun`), apply the communication schedule and
the warning-visit campaign. -/
def schedPhase (m : Model) : Except String Model :=
  let cw := m.step_count % 52
  match schedComm m cw with
  | Except.error e => Except.error e
  | Except.ok (commun, cost1) =>
    match schedWarn m cw with
    | Except.error e => Except.error e
    | Except.ok (ws, cost2) =>
      Except.ok { m with current_week := cw, is_high_urgency_week := false, sector_warnings := ws, current_commun := commun, total_compliance_costs := m.total_compliance_costs + cost1 + cost2 }

/-- The selection loop of `auditing_strategy`, `src/model_final.py` lines
366-399: per group, on campaign weeks the configured group rate (otherwise
rate 0) gives a target audit count; only agents past the 156-tick cooldown
are eligible and `min(eligible, target)` of them are sampled without
replacement. -/
def auditSelectGo (agents : List SMEAgent) (sc : ℕ)
    (rates : List ((String × String) × ℚ)) (campaign : Bool) :
    List (String × String) → List ℕ → Rng → List ℕ × Rng
  | [], acc, rng => (acc, rng)
  | k :: ks, acc, rng =>
    let members := (List.range agents.length).filter
      (fun i => keyOfIdx agents i == k)
    let base_rate := (dictGet k rates).getD 0
    let current_rate := if campaign then base_rate else 0
    let target := pyRound (current_rate * (members.length : ℚ))
    let elig := members.filter (fun i => 156 ≤ (sc : ℤ) - lastAuditIdx agents i)
    let n : ℤ := pyminI (elig.length : ℤ) target
    if 0 < n then
      let (picks, rng1) := choiceNR rng elig n.toNat
      auditSelectGo agents sc rates campaign ks (acc ++ picks) rng1
    else
      auditSelectGo agents sc rates campaign ks acc rng

/-- The random half of the audit execution, `src/model_final.py` lines
412-421: each audited agent gets a uniformly drawn audit type;
`rng.choice` on an empty type table raises `ValueError`, a missing type name
raises `KeyError`.  Produces assignments `(agent index, effect, cost)`. -/
def buildRandomA (types : List (String × (ℚ × ℚ))) :
    List ℕ → Rng → Except String (List (ℕ × ℚ × ℚ) × Rng)
  | [], rng => Except.ok ([], rng)
  | i :: rest, rng =>
    let keys := types.map Prod.fst
    if keys.length = 0 then Except.error ("ValueError: a must be non-empty")
    else
      let (d, rng1) := rng.next
      let name := keys.getD (pickIdx keys.length d) ("")
      match dictGet name types with
      | none => Except.error ("KeyError: audit type")
      | some ec =>
        match buildRandomA types rest rng1 with
        | Except.error e => Except.error e
        | Except.ok (asg, rng2) => Except.ok ((i, ec.1, ec.2) :: asg, rng2)

/-- The audit tier by sorted position, `src/model_final.py` lines 431-441:
bottom third "Deep", middle "Standard", top "Light" (Python true division in
the comparisons). -/
def tierName (pos n_t : ℕ) : String :=
  if (pos : ℚ) < (n_t : ℚ) / 3 then "Deep"
  else if (pos : ℚ) < 2 * (n_t : ℚ) / 3 then "Standard"
  else "Light"

/-- The targeted half of the audit execution, `src/model_final.py` lines
423-448: walk the risk-sorted group with its enumeration position `pos`
(Python's `for i, ag in enumerate(targeted_group)`). -/
def buildTargetedA (types : List (String × (ℚ × ℚ))) (n_t : ℕ) (pos : ℕ) :
    List ℕ → Except String (List (ℕ × ℚ × ℚ))
  | [] => Except.ok []
  | i :: rest =>
    match dictGet (tierName pos n_t) types with
    | none => Except.error ("KeyError: audit type")
    | some ec =>
      match buildTargetedA types n_t (pos + 1) rest with
      | Except.error e => Except.error e
      | Except.ok asg => Except.ok ((i, ec.1, ec.2) :: asg)

/-- Applying audit assignments, `src/model_final.py` lines 418-421 and
444-448: set the agent's `audit_impact` to the tier effect, stamp
`last_audit_step` with the current step, accumulate the tier costs. -/
def applyAsg (agents : List SMEAgent) (sc : ℕ) :
    List (ℕ × ℚ × ℚ) → List SMEAgent × ℚ
  | [] => (agents, 0)
  | (i, eff, cost) :: rest =>
    let agents1 :=
      match agents[i]? with
      | some ag => agents.set i { ag with audit_impact := eff, last_audit_step := (sc : ℤ) }
      | none => agents
    let res := applyAsg agents1 sc rest
    (res.1, cost + res.2)

/-- The execution block of `auditing_strategy` (`src/model_final.py` lines
401-448): shuffle the selected agents, split them into the random and the
risk-targeted halves, assign types and apply the audits. -/
def auditExec (m : Model) (sel : List ℕ) (rng1 : Rng) :
    Except String (List SMEAgent × ℚ × Rng) :=
  if sel = [] then Except.ok (m.agents, 0, rng1)
  else
    let shufRes := shuffleR rng1 sel
    let shuffled := shufRes.1
    let rng2 := shufRes.2
    let mid := shuffled.length / 2
    let rG := shuffled.take mid
    let tG := shuffled.drop mid
    match buildRandomA m.audit_types rG rng2 with
    | Except.error e => Except.error e
    | Except.ok (asgR, rng3) =>
      let sorted := sortByKey (fun i =>
        computeGroupMean m.agents (keyOfIdx m.agents i).1 (keyOfIdx m.agents i).2 none) tG
      match buildTargetedA m.audit_types tG.length 0 sorted with
      | Except.error e => Except.error e
      | Except.ok asgT =>
        let app1 := applyAsg m.agents m.step_count asgR
        let app2 := applyAsg app1.1 m.step_count asgT
        Except.ok (app2.1, app1.2 + app2.2, rng3)

/-- Phase 2 of `SMEComplianceModel.step`: `auditing_strategy`,
`src/model_final.py` lines 351-451. -/
def auditPhase (m : Model) : Except String Model :=
  let selRes := auditSelectGo m.agents m.step_count m.audit_rates
    (decide (m.step_count % 52 = m.tax_deadline_week + m.audit_delay_weeks))
    (dedupF (m.agents.map (fun a => (a.size_cat, a.age_cat)))) [] m.rng
  match auditExec m selRes.1 selRes.2 with
  | Except.error e => Except.error e
  | Except.ok (agents1, costAdd, rngF) =>
    if m.N = 0 then Except.error ("ZeroDivisionError: division by zero")
    else
      Except.ok { m with agents := agents1, rng := rngF, total_compliance_costs := m.total_compliance_costs + costAdd, total_audited_this_step := (selRes.1.length : ℚ) / (m.N : ℚ) }

/-- The loop inside `agents.shuffle_do("step")` (`src/model_final.py` line
516): execute `SMEAgent.step` once per agent, in the given order, against the
live population list (mutations of earlier agents in the order are visible to
later ones) and the one shared random stream. -/
def agentPhaseGo (ctx : StepCtx) (adj : List (List (List ℕ))) :
    List ℕ → List SMEAgent → Rng → Except String (List SMEAgent × Rng)
  | [], agents, rng => Except.ok (agents, rng)
  | i :: rest, agents, rng =>
    match agents[i]? with
    | none => Except.error ("invalid agent reference")
    | some a =>
      match stepAgent a ctx agents (adj.getD i []) rng with
      | Except.error e => Except.error e
      | Except.ok (a1, rng1) => agentPhaseGo ctx adj rest (agents.set i a1) rng1

/-- Phase 3 of `SMEComplianceModel.step`: the shuffled agent stepping.  The
execution order `ord` is the permutation produced by mesa's internal
`Random` instance — which `SMEComplianceModel.__init__` never seeds (line 102
calls `super().__init__()` without the seed), so `ord` is an input of the
step, not a function of the configured seed. -/
def agentPhase (m : Model) (ord : List ℕ) : Except String Model :=
  let ctx : StepCtx :=
    { current_commun := m.current_commun, sector_warnings := m.sector_warnings,
      decay_factor := m.decay_factor,
      is_high_urgency_week := m.is_high_urgency_week,
      step_count := m.step_count, current_week := m.current_week }
  match agentPhaseGo ctx m.adj ord m.agents m.rng with
  | Except.error e => Except.error e
  | Except.ok (agents1, rng1) => Except.ok { m with agents := agents1, rng := rng1 }

/-- `self.datacollector.collect(self)` (`src/model_final.py` line 517):
append the tick's model-reporter row. -/
def collectPhase (m : Model) : Model :=
  { m with collected := m.collected ++
      [(meanPropensity m.agents, m.total_audited_this_step,
        noncomplianceMean m.agents, taxGapRate m.agents m.underpayment)] }

/-- `SMEComplianceModel.step`, `src/model_final.py` lines 453-518, as the
composition of the four phases followed by the step-counter increment. -/
def modelStep (m : Model) (ord : List ℕ) : Except String Model :=
  match schedPhase m with
  | Except.error e => Except.error e
  | Except.ok m1 =>
    match auditPhase m1 with
    | Except.error e => Except.error e
    | Except.ok m2 =>
      match agentPhase m2 ord with
      | Except.error e => Except.error e
      | Except.ok m3 =>
        let m4 := collectPhase m3
        Except.ok { m4 with step_count := m4.step_count + 1 }

/-- `t` calls of `model.step()` from state `m`, the tick-`s` execution order
being `ords s`; a raised exception aborts the run. -/
def runFrom (m : Model) (ords : ℕ → List ℕ) : ℕ → Except String Model
  | 0 => Except.ok m
  | t + 1 =>
    match runFrom m ords t with
    | Except.error e => Except.error e
    | Except.ok x => modelStep x (ords t)

/-! ## Basic lemmas about the agent update -/

lemma clip01_nonneg (x : ℚ) : 0 ≤ clip01 x := by
  rw [clip01, pymax_eq_max]
  exact le_max_left 0 _

lemma clip01_le_one (x : ℚ) : clip01 x ≤ 1 := by
  rw [clip01, pymax_eq_max, pymin_eq_min]
  exact max_le (by norm_num) (min_le_left 1 x)

/-- Shape of a successful `SMEAgent.step`: the propensity lands in `[0,1]`
(it is a `clip01` image), `last_audit_step` and `audit_impact` are left
untouched, the typo'd attribute `audited_last_step` is set to `0`, and all
identity attributes are preserved. -/
lemma stepAgent_ok_fields {a : SMEAgent} {ctx : StepCtx}
    {agents : List SMEAgent} {cells : List (List ℕ)} {rng : Rng}
    {a' : SMEAgent} {rng' : Rng}
    (h : stepAgent a ctx agents cells rng = Except.ok (a', rng')) :
    (0 ≤ a'.propensity ∧ a'.propensity ≤ 1) ∧
      a'.last_audit_step = a.last_audit_step ∧
      a'.audit_impact = a.audit_impact ∧
      a'.audited_last_step = some 0 ∧
      a'.size_cat = a.size_cat ∧ a'.age_cat = a.age_cat ∧
      a'.has_advisor = a.has_advisor ∧
      a'.turnover = a.turnover ∧ a'.tax_rate = a.tax_rate := by
  unfold stepAgent at h
  cases hc : communicateFn a ctx agents cells rng with
  | error e => rw [hc] at h; exact absurd h (by simp)
  | ok pr =>
    obtain ⟨ic, rng1⟩ := pr
    rw [hc] at h
    by_cases hu : ctx.is_high_urgency_week
    · simp only [hu, if_true] at h
      cases hcs : a.comm_sensitivity with
      | none => rw [hcs] at h; exact absurd h (by simp)
      | some c =>
        rw [hcs] at h
        simp only [Except.ok.injEq, Prod.mk.injEq] at h
        obtain ⟨ha, -⟩ := h
        subst ha
        exact ⟨⟨clip01_nonneg _, clip01_le_one _⟩, rfl, rfl, rfl, rfl, rfl, rfl, rfl, rfl⟩
    · simp only [hu, Bool.false_eq_true, if_false, Except.ok.injEq, Prod.mk.injEq] at h
      obtain ⟨ha, -⟩ := h
      subst ha
      exact ⟨⟨clip01_nonneg _, clip01_le_one _⟩, rfl, rfl, rfl, rfl, rfl, rfl, rfl, rfl⟩

/-! ## Concrete inputs used by witnesses and counterexamples -/

/-- A concrete SME (a plausible member of a constructed population). -/
def smeBase : SMEAgent :=
  { size_cat := "M", age_cat := "Y", propensity := 1/2, turnover := 100,
    tax_rate := 3/10, has_advisor := true }

/-- A concrete agent-step context: no communication, no warnings, no decay,
mid-year week, urgency flag off (as the model always leaves it). -/
def ctxBase : StepCtx :=
  { current_commun := 0, sector_warnings := [], decay_factor := 0,
    is_high_urgency_week := false, step_count := 6, current_week := 6 }

/-! ## Claim C1 -/

/-- C1 (confirmed): after population construction and after every execution
of `SMEAgent.step`, the agent's propensity lies in `[0,1]`: the construction
value is either a hard bound or the Beta draw (a value of `[0,1]`), and the
step always writes a `clip01` image, for every configuration and every input
intensity. -/
theorem propensity_always_in_unit_interval :
    (∀ mu d : ℚ, 0 ≤ d → d ≤ 1 →
      0 ≤ initPropensity mu d ∧ initPropensity mu d ≤ 1) ∧
    (∀ (a : SMEAgent) (ctx : StepCtx) (agents : List SMEAgent)
        (cells : List (List ℕ)) (rng : Rng) (a' : SMEAgent) (rng' : Rng),
      stepAgent a ctx agents cells rng = Except.ok (a', rng') →
      0 ≤ a'.propensity ∧ a'.propensity ≤ 1) := by
  constructor
  · intro mu d h0 h1
    unfold initPropensity
    split
    · exact ⟨le_refl 0, by norm_num⟩
    · split
      · exact ⟨by norm_num, le_refl 1⟩
      · exact ⟨h0, h1⟩
  · intro a ctx agents cells rng a' rng' h
    exact (stepAgent_ok_fields h).1

/-- Witness for C1: both parts applied at concrete inputs. -/
theorem propensity_always_in_unit_interval_check :
    (0 ≤ initPropensity (1/2) (2/3) ∧ initPropensity (1/2) (2/3) ≤ 1) ∧
    (0 ≤ ({ smeBase with audited_last_step := some 0 } : SMEAgent).propensity ∧
      ({ smeBase with audited_last_step := some 0 } : SMEAgent).propensity ≤ 1) :=
  ⟨propensity_always_in_unit_interval.1 (1/2) (2/3) (by norm_num) (by norm_num),
   propensity_always_in_unit_interval.2 smeBase ctxBase [] [] []
     { smeBase with audited_last_step := some 0 } [] (by decide)⟩

/-! ## Claim C4 -/

/-- C4 (code bug): `SMEAgent.step` does NOT reset `audit_impact` to 0 — the
"reset" at `src/agents.py` line 170 writes `audited_last_step = 0`, an
attribute nothing reads, instead of `audit_impact`.  Concretely: an agent
that has just been audited with effect `0.45` comes out of one step with
`audit_impact` still `0.45` (and `audited_last_step` set to `0`), so the
audit effect is re-applied on every later tick. -/
theorem audit_impact_not_reset_after_step :
    (stepAgent { smeBase with audit_impact := 9/20 } ctxBase [] [] []).map
      (fun p => (p.1.audit_impact, p.1.audited_last_step)) =
    Except.ok ((9/20 : ℚ), some (0 : ℚ)) := by decide

/-! ## Claim C8 -/

/-- C8 (code bug): a neighbor audited exactly one tick ago (its
`last_audit_step` is one less than the model's `step_count`) adds NO
bomb-crater contribution: `communicate` tests
`last_audit_step - step_count == 1` (the sign is flipped), which is false
here; with draws failing the deadline- and idle-chatter branches the total
peer effect is `0`, not `+0.0005`. -/
theorem bomb_crater_branch_not_taken :
    communicateFn smeBase { ctxBase with step_count := 2, current_week := 2 }
      [smeBase, { smeBase with last_audit_step := 1 }] [[1]]
      [99/100, 1/2] = Except.ok (0, []) := by decide

/-! ## Claim C9 -/

/-- C9 counterexample: the run-end ROI of `src/report_results.py` line 256
divides without a guard, so at zero total cost it raises
`ZeroDivisionError` instead of yielding the sentinel 0. -/
theorem roi_raises_on_zero_cost_cex :
    roiResult 5 0 = Except.error ("ZeroDivisionError: float division by zero") := by
  decide

/-- C9 amended: the core's ratios have 0-sentinels — the group mean of an
empty group is 0 and the tax-gap rate and the weighted non-compliance over
zero total liability are 0 — but the run-end ROI ratio of
`report_results.py` is unguarded and raises on zero total cost. -/
theorem zero_denominator_sentinels :
    (∀ (agents : List SMEAgent) (s a : String) (adv : Option Bool),
        agents.filter (fun x => x.size_cat == s && x.age_cat == a &&
          (match adv with | none => true | some b => x.has_advisor == b)) = [] →
        computeGroupMean agents s a adv = 0) ∧
    (∀ (agents : List SMEAgent) (u : Option ℚ),
        totalLiability agents = 0 →
        taxGapRate agents u = 0 ∧ weightedNoncompliance agents = 0) ∧
    (∀ reduction : ℚ,
        roiResult reduction 0 =
          Except.error ("ZeroDivisionError: float division by zero")) := by
  refine ⟨?_, ?_, ?_⟩
  · intro agents s a adv hfil
    unfold computeGroupMean
    simp only [hfil, List.map_nil, if_pos]
  · intro agents u hL
    constructor
    · unfold taxGapRate
      rw [hL]
      simp
    · unfold weightedNoncompliance
      rw [hL]
      simp
  · intro r
    unfold roiResult
    simp

/-- Witness for C9 amended: all three parts at concrete inputs. -/
theorem zero_denominator_sentinels_check :
    computeGroupMean [] ("S") ("A") none = 0 ∧
    (taxGapRate [] none = 0 ∧ weightedNoncompliance [] = 0) ∧
    roiResult 7 0 = Except.error ("ZeroDivisionError: float division by zero") :=
  ⟨zero_denominator_sentinels.1 [] ("S") ("A") none rfl,
   zero_denominator_sentinels.2.1 [] none rfl,
   zero_denominator_sentinels.2.2 7⟩

/-! ## Claim C7 -/

/-- C7 counterexample: an entity of a group whose mu-table entry is exactly 0
that has an advisor gets its center nudged to `0.02` before the draw, so its
propensity is the Beta(0.02·κ, 0.98·κ) draw — here `1/2`, not `0`. -/
theorem mu_zero_group_with_advisor_varies_cex :
    initPropensity (nudgedMu 0 true) (1/2) = 1/2 ∧
    initPropensity (nudgedMu 0 true) (1/2) ≠ 0 := by decide

/-- C7 amended: the advisor nudge is applied to the group mean before the
draw, so the exact-bound rule holds for the nudged mean: a mu-0 group entity
without an advisor gets exactly 0, and a mu-1 group entity with an advisor
gets exactly 1, whatever the draw. -/
theorem exact_bound_propensity_after_nudge (mu : ℚ) (adv : Bool) (d : ℚ) :
    (mu = 0 → adv = false → initPropensity (nudgedMu mu adv) d = 0) ∧
    (mu = 1 → adv = true → initPropensity (nudgedMu mu adv) d = 1) := by
  constructor
  · rintro rfl rfl
    simp only [nudgedMu, initPropensity, pymax, pymin]
    norm_num
  · rintro rfl rfl
    simp only [nudgedMu, initPropensity, pymax, pymin]
    norm_num

/-- Witness for C7 amended: both exact-bound cases at concrete draws. -/
theorem exact_bound_propensity_after_nudge_check :
    initPropensity (nudgedMu 0 false) (3/4) = 0 ∧
    initPropensity (nudgedMu 1 true) (1/4) = 1 :=
  ⟨(exact_bound_propensity_after_nudge 0 false (3/4)).1 rfl rfl,
   (exact_bound_propensity_after_nudge 1 true (1/4)).2 rfl rfl⟩

/-! ## Claim C3 -/

/-- C3 counterexample: a just-constructed population whose liability-weighted
non-compliance (`0.01`) is below the configured target gap (`0.05`): the
calibrated `u` clips at 1 and `compute_tax_gap_rate()` returns `0.01`,
missing the target by far more than `1e-6`.  (A propensity of `0.99` is a
regular Beta draw, so such populations are reachable from construction.) -/
theorem baseline_tax_gap_misses_target_cex :
    taxGapRate [{ smeBase with propensity := 99/100 }]
        (calibrateU [{ smeBase with propensity := 99/100 }] (1/20) none) = 1/100 ∧
    ¬ (|taxGapRate [{ smeBase with propensity := 99/100 }]
        (calibrateU [{ smeBase with propensity := 99/100 }] (1/20) none) - 1/20| ≤ 1/1000000) := by
  constructor
  · decide
  · decide

/-- C3 amended: with `calibrate_baseline=True` and
`underpayment_mean_if_noncompliant=None`, the baseline gap equals
`min(target, weighted non-compliance)` exactly: the configured target is hit
(in particular within `1e-6`) exactly when the target does not exceed the
liability-weighted non-compliance of the drawn population; beyond that the
calibration clips `u` at 1 and the gap saturates at the weighted
non-compliance (`u = 0` and gap `0` when the weighted non-compliance is 0). -/
theorem baseline_tax_gap_saturates (agents : List SMEAgent) (target : ℚ)
    (htarget : 0 ≤ target)
    (hok : ∀ a ∈ agents, 0 ≤ a.turnover ∧ 0 ≤ a.tax_rate ∧ a.propensity ≤ 1) :
    taxGapRate agents (calibrateU agents target none) =
      min target (weightedNoncompliance agents) := by
  have hS : 0 ≤ (agents.map (fun a => liability a * (1 - a.propensity))).sum := by
    apply List.sum_nonneg
    intro x hx
    simp only [List.mem_map] at hx
    obtain ⟨b, hb, rfl⟩ := hx
    have hb' := hok b hb
    have hL : 0 ≤ liability b := mul_nonneg hb'.1 hb'.2.1
    have h1p : 0 ≤ 1 - b.propensity := by linarith [hb'.2.2]
    exact mul_nonneg hL h1p
  by_cases hT : 0 < totalLiability agents
  case neg =>
    have hw : weightedNoncompliance agents = 0 := by
      unfold weightedNoncompliance
      rw [if_neg hT]
    have hg : taxGapRate agents (calibrateU agents target none) = 0 := by
      unfold taxGapRate
      rw [if_neg hT]
    rw [hg, hw, min_eq_right htarget]
  case pos =>
    have hw : weightedNoncompliance agents =
        (agents.map (fun a => liability a * (1 - a.propensity))).sum /
          totalLiability agents := by
      unfold weightedNoncompliance
      rw [if_pos hT]
    by_cases hw0 : weightedNoncompliance agents ≤ 0
    case pos =>
      have hweq : weightedNoncompliance agents = 0 :=
        le_antisymm hw0 (by rw [hw]; exact div_nonneg hS (le_of_lt hT))
      have hcal : calibrateU agents target none = some 0 := by
        unfold calibrateU
        rw [if_pos hw0]
      have hg : taxGapRate agents (some 0) = 0 := by
        unfold taxGapRate
        rw [if_pos hT]
        simp
      rw [hcal, hg, hweq, min_eq_right htarget]
    case neg =>
      push_neg at hw0
      have hcal : calibrateU agents target none =
          some (pymax 0 (pymin 1 (target / weightedNoncompliance agents))) := by
        unfold calibrateU
        rw [if_neg (not_le.mpr hw0)]
      have hu0 : (0 : ℚ) ≤ target / weightedNoncompliance agents :=
        div_nonneg htarget (le_of_lt hw0)
      have humax : pymax 0 (pymin 1 (target / weightedNoncompliance agents)) =
          min 1 (target / weightedNoncompliance agents) := by
        rw [pymax_eq_max, pymin_eq_min]
        exact max_eq_right (le_min (by norm_num) hu0)
      have hgap : ∀ u : ℚ, taxGapRate agents (some u) =
          u * weightedNoncompliance agents := by
        intro u
        unfold taxGapRate
        rw [if_pos hT]
        have hsum : (agents.map (fun a => liability a * (1 - a.propensity) * ((some u).getD 0))).sum =
            (agents.map (fun a => liability a * (1 - a.propensity))).sum * u := by
          simp only [Option.getD_some]
          exact List.sum_map_mul_right _ _ _
        rw [hsum, hw, mul_comm _ u, mul_div_assoc]
      rw [hcal, humax, hgap]
      by_cases hle : target / weightedNoncompliance agents ≤ 1
      case pos =>
        rw [min_eq_right hle, div_mul_cancel₀ _ (ne_of_gt hw0),
          min_eq_left ((div_le_one hw0).mp hle)]
      case neg =>
        push_neg at hle
        rw [min_eq_left (le_of_lt hle), one_mul,
          min_eq_right (le_of_lt ((one_lt_div hw0).mp hle))]

/-- Witness for C3 amended: a one-agent population with propensity 1/2;
the weighted non-compliance is 1/2 ≥ the target 1/20, so the baseline gap
equals the target exactly. -/
theorem baseline_tax_gap_saturates_check :
    taxGapRate [smeBase] (calibrateU [smeBase] (1/20) none) =
      min (1/20) (weightedNoncompliance [smeBase]) :=
  baseline_tax_gap_saturates [smeBase] (1/20) (by norm_num) (by decide)

/-! ## Claim C5 (amended part) -/

/-- C5 amended: within a tick's agent phase, `SMEAgent.step` never mutates
`last_audit_step` — the only persistent neighbor field `communicate` reads —
so every peer read observes the value the auditing phase left, independent
of where the neighbor sits in the execution order.  (The full
order-independence of the post-tick state is refuted separately: agents
consume the one shared random stream in execution order.) -/
theorem neighbor_read_state_stable_in_agent_phase
    (a : SMEAgent) (ctx : StepCtx) (agents : List SMEAgent)
    (cells : List (List ℕ)) (rng : Rng) (a' : SMEAgent) (rng' : Rng)
    (h : stepAgent a ctx agents cells rng = Except.ok (a', rng')) :
    a'.last_audit_step = a.last_audit_step :=
  (stepAgent_ok_fields h).2.1

/-- Witness for C5 amended: the stability of `last_audit_step` at a concrete
agent step. -/
theorem neighbor_read_state_stable_in_agent_phase_check :
    ({ smeBase with audited_last_step := some 0 } : SMEAgent).last_audit_step =
      smeBase.last_audit_step :=
  neighbor_read_state_stable_in_agent_phase smeBase ctxBase [] [] []
    { smeBase with audited_last_step := some 0 } [] (by decide)

/-! ## A concrete two-agent model (used against C2 and C5)

Two mutually neighboring SMEs of one group, no scheduled communication, no
audit rates, zero decay: from tick 1 on (week 1), the pre-deadline chatter
branch of `communicate` passes or fails depending on which draw of the one
shared stream an agent receives, and the draws are handed out in execution
order. -/

/-- The second SME of the two-agent population (lower starting propensity,
so the two agents react differently to the same peer nudge). -/
def smeRunB : SMEAgent := { smeBase with propensity := 1/4 }

/-- A just-constructed two-agent model: agents 0 and 1 are each other's
network neighbors, the random stream continues `0, 0, 51/52, 0, 0, …`,
`u` has been calibrated, all intervention tables are empty. -/
def mRun : Model :=
  { agents := [smeBase, smeRunB], adj := [[[1]], [[0]]],
    rng := [0, 0, 51/52, 0, 0], N := 2, step_count := 0, decay_factor := 0,
    C_target := 7/10, size_order := ["M"], age_order := ["Y"],
    group_counts := [(("M", "Y"), 2)], audit_rates := [],
    audit_types := [("Light", (9/20, 2340)), ("Standard", (9/20, 2340)),
      ("Deep", (9/10, 4680))],
    channel_effects := [], intervention_costs := [],
    communication_schedule := [], tax_gap_target_rate := 1/20,
    underpayment := some (1/10) }

/-- Both ticks executed in agent order 0, 1 (one possible output of mesa's
unseeded shuffle). -/
def ordsAA : ℕ → List ℕ := fun _ => [0, 1]

/-- Same first tick, but the second tick executed in order 1, 0 (another
possible output of mesa's unseeded shuffle). -/
def ordsAB : ℕ → List ℕ := fun t => if t = 1 then [1, 0] else [0, 1]

/-! ## Membership lemmas for the audit-selection pipeline (toward C6) -/

lemma choiceNR_mem {x : ℕ} :
    ∀ (n : ℕ) (rng : Rng) (l : List ℕ), x ∈ (choiceNR rng l n).1 → x ∈ l := by
  intro n
  induction n with
  | zero => intro rng l hx; simp [choiceNR] at hx
  | succ n ih =>
    intro rng l hx
    unfold choiceNR at hx
    by_cases h0 : l.length = 0
    · rw [if_pos h0] at hx
      simp at hx
    · rw [if_neg h0] at hx
      rcases hnext : rng.next with ⟨d, rng1⟩
      rw [hnext] at hx
      dsimp only at hx
      rcases hrec : choiceNR rng1 (l.eraseIdx (pickIdx l.length d)) n with ⟨rest, rng2⟩
      rw [hrec] at hx
      simp only [List.mem_cons] at hx
      rcases hx with hx | hx
      · subst hx
        have hk : pickIdx l.length d < l.length :=
          Nat.mod_lt _ (Nat.pos_of_ne_zero h0)
        rw [List.getD_eq_getElem?_getD, List.getElem?_eq_getElem hk]
        exact List.getElem_mem hk
      · have := ih rng1 (l.eraseIdx (pickIdx l.length d)) (by rw [hrec]; exact hx)
        exact List.mem_of_mem_eraseIdx this

lemma shuffleR_mem {rng : Rng} {l : List ℕ} {x : ℕ}
    (hx : x ∈ (shuffleR rng l).1) : x ∈ l :=
  choiceNR_mem l.length rng l hx

lemma insertByKey_mem {f : ℕ → ℚ} {x y : ℕ} :
    ∀ {l : List ℕ}, y ∈ insertByKey f x l → y = x ∨ y ∈ l := by
  intro l
  induction l with
  | nil => intro h; simpa [insertByKey] using h
  | cons z zs ih =>
    intro h
    unfold insertByKey at h
    by_cases hc : f z ≤ f x
    · rw [if_pos hc] at h
      simp only [List.mem_cons] at h
      rcases h with h | h
      · exact Or.inr (by simp [h])
      · rcases ih h with h' | h'
        · exact Or.inl h'
        · exact Or.inr (List.mem_cons_of_mem _ h')
    · rw [if_neg hc] at h
      simp only [List.mem_cons] at h
      rcases h with h | h
      · exact Or.inl h
      · exact Or.inr (List.mem_cons.mpr h)

lemma sortByKey_mem {f : ℕ → ℚ} {l : List ℕ} {y : ℕ}
    (hy : y ∈ sortByKey f l) : y ∈ l := by
  unfold sortByKey at hy
  suffices h : ∀ (l : List ℕ) (acc : List ℕ), y ∈ l.foldl (fun a x => insertByKey f x a) acc → y ∈ acc ∨ y ∈ l by
    rcases h l [] hy with h' | h'
    · simp at h'
    · exact h'
  intro l'
  induction l' with
  | nil => intro acc h; exact Or.inl h
  | cons z zs ih =>
    intro acc h
    rcases ih (insertByKey f z acc) h with h' | h'
    · rcases insertByKey_mem h' with h'' | h''
      · exact Or.inr (by simp [h''])
      · exact Or.inl h''
    · exact Or.inr (List.mem_cons_of_mem _ h')

lemma buildRandomA_mem {types : List (String × (ℚ × ℚ))} {p : ℕ × ℚ × ℚ} :
    ∀ {l : List ℕ} {rng : Rng} {asg : List (ℕ × ℚ × ℚ)} {rng2 : Rng},
      buildRandomA types l rng = Except.ok (asg, rng2) → p ∈ asg → p.1 ∈ l := by
  intro l
  induction l with
  | nil =>
    intro rng asg rng2 h hp
    unfold buildRandomA at h
    simp only [Except.ok.injEq, Prod.mk.injEq] at h
    rw [← h.1] at hp
    simp at hp
  | cons i rest ih =>
    intro rng asg rng2 h hp
    unfold buildRandomA at h
    by_cases h0 : (types.map Prod.fst).length = 0
    · rw [if_pos h0] at h
      exact absurd h (by simp)
    · rw [if_neg h0] at h
      rcases hnext : rng.next with ⟨d, rng1⟩
      rw [hnext] at h
      dsimp only at h
      cases hdg : dictGet ((types.map Prod.fst).getD (pickIdx (types.map Prod.fst).length d) ("")) types with
      | none => rw [hdg] at h; exact absurd h (by simp)
      | some ec =>
        rw [hdg] at h
        cases hrec : buildRandomA types rest rng1 with
        | error e => rw [hrec] at h; exact absurd h (by simp)
        | ok pr =>
          rcases pr with ⟨asg1, rngr⟩
          rw [hrec] at h
          simp only [Except.ok.injEq, Prod.mk.injEq] at h
          rw [← h.1] at hp
          simp only [List.mem_cons] at hp
          rcases hp with hp | hp
          · rw [hp]
            simp
          · exact List.mem_cons_of_mem _ (ih hrec hp)

lemma buildTargetedA_mem {types : List (String × (ℚ × ℚ))} {n_t : ℕ} {p : ℕ × ℚ × ℚ} :
    ∀ {pos : ℕ} {l : List ℕ} {asg : List (ℕ × ℚ × ℚ)},
      buildTargetedA types n_t pos l = Except.ok asg → p ∈ asg → p.1 ∈ l := by
  intro pos l
  induction l generalizing pos with
  | nil =>
    intro asg h hp
    unfold buildTargetedA at h
    simp only [Except.ok.injEq] at h
    rw [← h] at hp
    simp at hp
  | cons i rest ih =>
    intro asg h hp
    unfold buildTargetedA at h
    cases hdg : dictGet (tierName pos n_t) types with
    | none => rw [hdg] at h; exact absurd h (by simp)
    | some ec =>
      rw [hdg] at h
      cases hrec : buildTargetedA types n_t (pos + 1) rest with
      | error e => rw [hrec] at h; exact absurd h (by simp)
      | ok asg1 =>
        rw [hrec] at h
        simp only [Except.ok.injEq] at h
        rw [← h] at hp
        simp only [List.mem_cons] at hp
        rcases hp with hp | hp
        · rw [hp]
          simp
        · exact List.mem_cons_of_mem _ (ih hrec hp)

/-! ## The audit dichotomy: an agent's `last_audit_step` is untouched by a
tick, or stamped with the tick's step count after passing the 156-tick
eligibility filter -/

lemma lastAuditIdx_of_getElem {agents : List SMEAgent} {i : ℕ} {a : SMEAgent}
    (h : agents[i]? = some a) : lastAuditIdx agents i = a.last_audit_step := by
  unfold lastAuditIdx
  rw [h]

lemma lastAuditIdx_set (agents : List SMEAgent) (j : ℕ) (ag' : SMEAgent) (i : ℕ) :
    lastAuditIdx (agents.set j ag') i =
      if i = j ∧ j < agents.length then ag'.last_audit_step
      else lastAuditIdx agents i := by
  unfold lastAuditIdx
  by_cases hij : i = j
  · subst hij
    by_cases hl : i < agents.length
    · rw [List.getElem?_set_self hl, if_pos ⟨rfl, hl⟩]
    · rw [List.set_eq_of_length_le (Nat.le_of_not_lt hl), if_neg (by tauto)]
  · rw [List.getElem?_set_ne (fun h => hij h.symm), if_neg (by tauto)]

lemma applyAsg_length {sc : ℕ} :
    ∀ (asg : List (ℕ × ℚ × ℚ)) (agents : List SMEAgent),
      (applyAsg agents sc asg).1.length = agents.length := by
  intro asg
  induction asg with
  | nil => intro agents; rfl
  | cons p rest ih =>
    intro agents
    rcases p with ⟨j, e, c⟩
    unfold applyAsg
    cases hj : agents[j]? with
    | none =>
      dsimp only
      exact ih agents
    | some ag =>
      dsimp only
      rw [ih (agents.set j { ag with audit_impact := e, last_audit_step := (sc : ℤ) })]
      exact List.length_set agents j _

lemma applyAsg_lastAudit {sc : ℕ} :
    ∀ (asg : List (ℕ × ℚ × ℚ)) (agents : List SMEAgent) (i : ℕ),
      lastAuditIdx (applyAsg agents sc asg).1 i = lastAuditIdx agents i ∨
      (lastAuditIdx (applyAsg agents sc asg).1 i = (sc : ℤ) ∧
        i ∈ asg.map (fun p => p.1)) := by
  intro asg
  induction asg with
  | nil => intro agents i; exact Or.inl rfl
  | cons p rest ih =>
    intro agents i
    rcases p with ⟨j, e, c⟩
    unfold applyAsg
    cases hj : agents[j]? with
    | none =>
      dsimp only
      rcases ih agents i with h | ⟨h1, h2⟩
      · exact Or.inl h
      · exact Or.inr ⟨h1, by simp [h2]⟩
    | some ag =>
      dsimp only
      rcases ih (agents.set j { ag with audit_impact := e, last_audit_step := (sc : ℤ) }) i
        with h | ⟨h1, h2⟩
      · rw [h, lastAuditIdx_set]
        by_cases hc : i = j ∧ j < agents.length
        · rw [if_pos hc]
          exact Or.inr ⟨rfl, by simp [hc.1]⟩
        · rw [if_neg hc]
          exact Or.inl rfl
      · exact Or.inr ⟨h1, by simp [h2]⟩

lemma auditSelectGo_elig {agents : List SMEAgent} {sc : ℕ}
    {rates : List ((String × String) × ℚ)} {camp : Bool} :
    ∀ (ks : List (String × String)) (acc : List ℕ) (rng : Rng) {i : ℕ},
      i ∈ (auditSelectGo agents sc rates camp ks acc rng).1 →
      i ∈ acc ∨ 156 ≤ (sc : ℤ) - lastAuditIdx agents i := by
  intro ks
  induction ks with
  | nil => intro acc rng i h; exact Or.inl h
  | cons k ks ih =>
    intro acc rng i h
    unfold auditSelectGo at h
    dsimp only at h
    by_cases hn : 0 < pyminI (((List.range agents.length).filter
        (fun j => keyOfIdx agents j == k)).filter
          (fun j => 156 ≤ (sc : ℤ) - lastAuditIdx agents j)).length
        (pyRound ((if camp then (dictGet k rates).getD 0 else 0) *
          (((List.range agents.length).filter (fun j => keyOfIdx agents j == k)).length : ℚ)))
    · rw [if_pos hn] at h
      rcases ih _ _ h with h' | h'
      · rcases List.mem_append.mp h' with h'' | h''
        · exact Or.inl h''
        · have hel := choiceNR_mem _ rng _ h''
          have := (List.mem_filter.mp hel).2
          exact Or.inr (of_decide_eq_true this)
      · exact Or.inr h'
    · rw [if_neg hn] at h
      exact ih _ _ h

lemma auditExec_shape {m : Model} {sel : List ℕ} {rng1 : Rng}
    {agents1 : List SMEAgent} {c : ℚ} {rngF : Rng}
    (h : auditExec m sel rng1 = Except.ok (agents1, c, rngF)) :
    agents1.length = m.agents.length ∧
      ∀ i, lastAuditIdx agents1 i = lastAuditIdx m.agents i ∨
        (lastAuditIdx agents1 i = (m.step_count : ℤ) ∧ i ∈ sel) := by
  unfold auditExec at h
  by_cases hsel : sel = []
  · rw [if_pos hsel] at h
    simp only [Except.ok.injEq, Prod.mk.injEq] at h
    rw [← h.1]
    exact ⟨rfl, fun i => Or.inl rfl⟩
  · rw [if_neg hsel] at h
    dsimp only at h
    cases hbr : buildRandomA m.audit_types
        ((shuffleR rng1 sel).1.take ((shuffleR rng1 sel).1.length / 2))
        (shuffleR rng1 sel).2 with
    | error e => rw [hbr] at h; exact absurd h (by simp)
    | ok pr =>
      rcases pr with ⟨asgR, rng3⟩
      rw [hbr] at h
      cases hbt : buildTargetedA m.audit_types
          ((shuffleR rng1 sel).1.drop ((shuffleR rng1 sel).1.length / 2)).length 0
          (sortByKey (fun i =>
            computeGroupMean m.agents (keyOfIdx m.agents i).1 (keyOfIdx m.agents i).2 none)
            ((shuffleR rng1 sel).1.drop ((shuffleR rng1 sel).1.length / 2))) with
      | error e => rw [hbt] at h; exact absurd h (by simp)
      | ok asgT =>
        rw [hbt] at h
        simp only [Except.ok.injEq, Prod.mk.injEq] at h
        obtain ⟨hag, -⟩ := h
        rw [← hag]
        constructor
        · rw [applyAsg_length, applyAsg_length]
        · intro i
          rcases applyAsg_lastAudit asgT (applyAsg m.agents m.step_count asgR).1 i
            with h2 | ⟨h2, hmem⟩
          · rw [h2]
            rcases applyAsg_lastAudit asgR m.agents i with h1 | ⟨h1, hmem⟩
            · exact Or.inl h1
            · refine Or.inr ⟨h1, ?_⟩
              simp only [List.mem_map] at hmem
              obtain ⟨p, hp, hpi⟩ := hmem
              have := buildRandomA_mem hbr hp
              rw [hpi] at this
              exact shuffleR_mem (List.mem_of_mem_take this)
          · refine Or.inr ⟨h2, ?_⟩
            simp only [List.mem_map] at hmem
            obtain ⟨p, hp, hpi⟩ := hmem
            have := buildTargetedA_mem hbt hp
            rw [hpi] at this
            have := sortByKey_mem this
            exact shuffleR_mem (List.mem_of_mem_drop this)

lemma auditPhase_shape {m m2 : Model} (h : auditPhase m = Except.ok m2) :
    ∃ ag2 rng2 c2 ta2, m2 = { m with agents := ag2, rng := rng2, total_compliance_costs := c2, total_audited_this_step := ta2 } ∧
      ag2.length = m.agents.length ∧
      ∀ i, lastAuditIdx ag2 i = lastAuditIdx m.agents i ∨
        (lastAuditIdx ag2 i = (m.step_count : ℤ) ∧
          lastAuditIdx m.agents i + 156 ≤ (m.step_count : ℤ)) := by
  unfold auditPhase at h
  dsimp only at h
  cases hex : auditExec m
      (auditSelectGo m.agents m.step_count m.audit_rates
        (decide (m.step_count % 52 = m.tax_deadline_week + m.audit_delay_weeks))
        (dedupF (m.agents.map (fun a => (a.size_cat, a.age_cat)))) [] m.rng).1
      (auditSelectGo m.agents m.step_count m.audit_rates
        (decide (m.step_count % 52 = m.tax_deadline_week + m.audit_delay_weeks))
        (dedupF (m.agents.map (fun a => (a.size_cat, a.age_cat)))) [] m.rng).2 with
  | error e => rw [hex] at h; exact absurd h (by simp)
  | ok pr =>
    rcases pr with ⟨agents1, costAdd, rngF⟩
    rw [hex] at h
    dsimp only at h
    by_cases hN : m.N = 0
    · rw [if_pos hN] at h
      exact absurd h (by simp)
    · rw [if_neg hN] at h
      simp only [Except.ok.injEq] at h
      obtain ⟨hlen, hdich⟩ := auditExec_shape hex
      refine ⟨agents1, rngF, _, _, h.symm, hlen, ?_⟩
      intro i
      rcases hdich i with h1 | ⟨h1, hmem⟩
      · exact Or.inl h1
      · refine Or.inr ⟨h1, ?_⟩
        rcases auditSelectGo_elig _ [] m.rng hmem with h2 | h2
        · simp at h2
        · omega

lemma schedPhase_shape {m m1 : Model} (h : schedPhase m = Except.ok m1) :
    ∃ ws c tc, m1 = { m with current_week := m.step_count % 52, is_high_urgency_week := false, sector_warnings := ws, current_commun := c, total_compliance_costs := tc } := by
  unfold schedPhase at h
  dsimp only at h
  cases hc : schedComm m (m.step_count % 52) with
  | error e => rw [hc] at h; exact absurd h (by simp)
  | ok pr =>
    rcases pr with ⟨commun, cost1⟩
    rw [hc] at h
    cases hw : schedWarn m (m.step_count % 52) with
    | error e => rw [hw] at h; exact absurd h (by simp)
    | ok pr2 =>
      rcases pr2 with ⟨ws, cost2⟩
      rw [hw] at h
      simp only [Except.ok.injEq] at h
      exact ⟨ws, commun, m.total_compliance_costs + cost1 + cost2, h.symm⟩

lemma agentPhaseGo_fields {ctx : StepCtx} {adj : List (List (List ℕ))} :
    ∀ (ord : List ℕ) (agents : List SMEAgent) (rng : Rng) {agents1 : List SMEAgent}
      {rng1 : Rng},
      agentPhaseGo ctx adj ord agents rng = Except.ok (agents1, rng1) →
      agents1.length = agents.length ∧
        ∀ i, lastAuditIdx agents1 i = lastAuditIdx agents i := by
  intro ord
  induction ord with
  | nil =>
    intro agents rng agents1 rng1 h
    unfold agentPhaseGo at h
    simp only [Except.ok.injEq, Prod.mk.injEq] at h
    rw [← h.1]
    exact ⟨rfl, fun i => rfl⟩
  | cons j rest ih =>
    intro agents rng agents1 rng1 h
    unfold agentPhaseGo at h
    cases hj : agents[j]? with
    | none => rw [hj] at h; exact absurd h (by simp)
    | some a =>
      rw [hj] at h
      dsimp only at h
      cases hs : stepAgent a ctx agents (adj.getD j []) rng with
      | error e => rw [hs] at h; exact absurd h (by simp)
      | ok pr =>
        rcases pr with ⟨a1, rngx⟩
        rw [hs] at h
        obtain ⟨hlen, hlast⟩ := ih (agents.set j a1) rngx h
        refine ⟨by rw [hlen, List.length_set], ?_⟩
        intro i
        rw [hlast i, lastAuditIdx_set]
        by_cases hc : i = j ∧ j < agents.length
        · rw [if_pos hc]
          obtain ⟨hij, hjl⟩ := hc
          subst hij
          rw [(stepAgent_ok_fields hs).2.1, lastAuditIdx_of_getElem hj]
        · rw [if_neg hc]

lemma agentPhase_shape {m m3 : Model} {ord : List ℕ}
    (h : agentPhase m ord = Except.ok m3) :
    ∃ ag rng, m3 = { m with agents := ag, rng := rng } ∧
      ag.length = m.agents.length ∧
      ∀ i, lastAuditIdx ag i = lastAuditIdx m.agents i := by
  unfold agentPhase at h
  dsimp only at h
  cases hgo : agentPhaseGo
      { current_commun := m.current_commun, sector_warnings := m.sector_warnings,
        decay_factor := m.decay_factor,
        is_high_urgency_week := m.is_high_urgency_week,
        step_count := m.step_count, current_week := m.current_week }
      m.adj ord m.agents m.rng with
  | error e => rw [hgo] at h; exact absurd h (by simp)
  | ok pr =>
    rcases pr with ⟨ag, rng⟩
    rw [hgo] at h
    simp only [Except.ok.injEq] at h
    obtain ⟨hlen, hlast⟩ := agentPhaseGo_fields ord m.agents m.rng hgo
    exact ⟨ag, rng, h.symm, hlen, hlast⟩

/-- The per-tick fact behind the audit cooldown: one `model.step()` advances
the counter by one and, for every agent, either leaves `last_audit_step`
untouched or stamps it with this tick's step count after the agent passed the
`>= 156` eligibility filter. -/
lemma modelStep_ok_core {m m' : Model} {ord : List ℕ}
    (h : modelStep m ord = Except.ok m') :
    m'.step_count = m.step_count + 1 ∧
    m'.agents.length = m.agents.length ∧
    m'.adj = m.adj ∧
    ∀ i, lastAuditIdx m'.agents i = lastAuditIdx m.agents i ∨
      (lastAuditIdx m'.agents i = (m.step_count : ℤ) ∧
        lastAuditIdx m.agents i + 156 ≤ (m.step_count : ℤ)) := by
  unfold modelStep at h
  cases h1 : schedPhase m with
  | error e => rw [h1] at h; exact absurd h (by simp)
  | ok m1 =>
    rw [h1] at h
    dsimp only at h
    cases h2 : auditPhase m1 with
    | error e => rw [h2] at h; exact absurd h (by simp)
    | ok m2 =>
      rw [h2] at h
      dsimp only at h
      cases h3 : agentPhase m2 ord with
      | error e => rw [h3] at h; exact absurd h (by simp)
      | ok m3 =>
        rw [h3] at h
        dsimp only at h
        simp only [collectPhase, Except.ok.injEq] at h
        obtain ⟨ws, cc, tc, hm1⟩ := schedPhase_shape h1
        obtain ⟨ag2, rng2, c2, ta2, hm2, hlen2, hdich⟩ := auditPhase_shape h2
        obtain ⟨ag3, rng3, hm3, hlen3, hlast3⟩ := agentPhase_shape h3
        subst hm1 hm2 hm3
        rw [← h]
        refine ⟨rfl, hlen3.trans hlen2, rfl, ?_⟩
        intro i
        have hcomb : lastAuditIdx ag3 i = lastAuditIdx ag2 i := hlast3 i
        have hdich' : lastAuditIdx ag2 i = lastAuditIdx m.agents i ∨
            (lastAuditIdx ag2 i = (m.step_count : ℤ) ∧
              lastAuditIdx m.agents i + 156 ≤ (m.step_count : ℤ)) := hdich i
        rcases hdich' with h1 | ⟨h1, h2⟩
        · exact Or.inl (hcomb.trans h1)
        · exact Or.inr ⟨hcomb.trans h1, h2⟩

lemma runFrom_prefix_ok {m : Model} {ords : ℕ → List ℕ} :
    ∀ {t : ℕ} {x : Model}, runFrom m ords t = Except.ok x →
      ∀ s, s ≤ t → ∃ y, runFrom m ords s = Except.ok y := by
  intro t
  induction t with
  | zero =>
    intro x h s hs
    have : s = 0 := Nat.le_zero.mp hs
    subst this
    exact ⟨x, h⟩
  | succ t ih =>
    intro x h s hs
    have h0 := h
    unfold runFrom at h
    cases hr : runFrom m ords t with
    | error e => rw [hr] at h; exact absurd h (by simp)
    | ok y =>
      rw [hr] at h
      by_cases hst : s = t + 1
      · subst hst
        exact ⟨x, h0⟩
      · exact ih hr s (by omega)

lemma runFrom_step_count {m : Model} {ords : ℕ → List ℕ}
    (h0 : m.step_count = 0) :
    ∀ {t : ℕ} {x : Model}, runFrom m ords t = Except.ok x →
      x.step_count = t := by
  intro t
  induction t with
  | zero =>
    intro x h
    unfold runFrom at h
    simp only [Except.ok.injEq] at h
    rw [← h]
    exact h0
  | succ t ih =>
    intro x h
    unfold runFrom at h
    cases hr : runFrom m ords t with
    | error e => rw [hr] at h; exact absurd h (by simp)
    | ok y =>
      rw [hr] at h
      rw [(modelStep_ok_core h).1, ih hr]

/-- `last_audit_step` of agent `i` after `t` calls of `model.step()`
(`none` when the run has raised before reaching tick `t`). -/
def lastAuditAt (m : Model) (ords : ℕ → List ℕ) (t i : ℕ) : Option ℤ :=
  match runFrom m ords t with
  | Except.ok x => some (lastAuditIdx x.agents i)
  | Except.error _ => none

/-! ## Claim C6 -/

/-- C6 (confirmed): the audit cooldown.  In any run from a freshly
constructed model (step counter 0), if the allocator stamps agent `i`'s
`last_audit_step` at tick `t1` and again at tick `t2 > t1` (the stamp
equals the tick and differs from the previous value), then `t2` is at least
`156` ticks after `t1`: an agent is never audited twice within the cooldown
period, because eligibility requires `step_count - last_audit_step ≥ 156`. -/
theorem audit_cooldown_156 (m : Model) (ords : ℕ → List ℕ) (i t1 t2 : ℕ)
    (h0 : m.step_count = 0)
    (hok : (runFrom m ords (t2 + 1)).isOk = true)
    (he1a : lastAuditAt m ords (t1 + 1) i = some (t1 : ℤ))
    (he1b : lastAuditAt m ords t1 i ≠ some (t1 : ℤ))
    (he2a : lastAuditAt m ords (t2 + 1) i = some (t2 : ℤ))
    (he2b : lastAuditAt m ords t2 i ≠ some (t2 : ℤ))
    (h12 : t1 < t2) : t1 + 156 ≤ t2 := by
  obtain ⟨xfin, hfin⟩ : ∃ x, runFrom m ords (t2 + 1) = Except.ok x := by
    cases hrf : runFrom m ords (t2 + 1) with
    | ok x => exact ⟨x, rfl⟩
    | error e => rw [hrf] at hok; exact absurd hok (by simp [Except.isOk, Except.toBool])
  have hA : ∀ s, t1 + 1 ≤ s → s ≤ t2 → ∀ y, runFrom m ords s = Except.ok y →
      (t1 : ℤ) ≤ lastAuditIdx y.agents i := by
    intro s
    induction s with
    | zero => intro hs1; omega
    | succ s ih =>
      intro hs1 hs2 y hy
      by_cases hbase : s = t1
      · subst hbase
        unfold lastAuditAt at he1a
        rw [hy] at he1a
        simp only [Option.some.injEq] at he1a
        rw [he1a]
      · have hs1' : t1 + 1 ≤ s := by omega
        unfold runFrom at hy
        cases hr : runFrom m ords s with
        | error e => rw [hr] at hy; exact absurd hy (by simp)
        | ok z =>
          rw [hr] at hy
          rcases (modelStep_ok_core hy).2.2.2 i with hd | ⟨hd, -⟩
          · rw [hd]
            exact ih hs1' (by omega) z hr
          · rw [hd, runFrom_step_count h0 hr]
            exact_mod_cast Nat.le_of_succ_le hs1'
  obtain ⟨y2, hy2⟩ := runFrom_prefix_ok hfin t2 (by omega)
  have hstep : modelStep y2 (ords t2) = Except.ok xfin := by
    have h := hfin
    unfold runFrom at h
    rw [hy2] at h
    exact h
  have hx2 : lastAuditIdx xfin.agents i = (t2 : ℤ) := by
    unfold lastAuditAt at he2a
    rw [hfin] at he2a
    simpa using he2a
  have hy2ne : lastAuditIdx y2.agents i ≠ (t2 : ℤ) := by
    unfold lastAuditAt at he2b
    rw [hy2] at he2b
    simpa using he2b
  rcases (modelStep_ok_core hstep).2.2.2 i with hd | ⟨-, hd2⟩
  · exact absurd (hd ▸ hx2) hy2ne
  · have hA2 := hA t2 (by omega) (le_refl t2) y2 hy2
    have hsc2 : y2.step_count = t2 := runFrom_step_count h0 hy2
    rw [hsc2] at hd2
    omega

/-- A one-agent model for exercising the cooldown end to end: audit rate 1
for its group, zero-effect zero-cost audit types (so the propensity stays
put), no neighbors, no communication; the annual campaign week is
`12 + 8 = 20`, so audits can only happen at ticks 20, 72, 124, 176, …, and
the cooldown admits them exactly at 20 and 176. -/
def mCool : Model :=
  { agents := [smeBase], adj := [[]], rng := [], N := 1, step_count := 0,
    decay_factor := 0, C_target := 0, size_order := ["M"], age_order := ["Y"],
    group_counts := [(("M", "Y"), 1)], audit_rates := [(("M", "Y"), 1)],
    audit_types := [("Light", (0, 0)), ("Standard", (0, 0)), ("Deep", (0, 0))],
    channel_effects := [], intervention_costs := [],
    communication_schedule := [], warning_visit_week := 999,
    tax_gap_target_rate := 1/20, underpayment := some 0 }

/-- The single agent steps alone every tick. -/
def ordsOne : ℕ → List ℕ := fun _ => [0]

set_option maxRecDepth 100000

/-- Witness for C6: in the concrete 177-tick run of `mCool`, the agent is
audited at tick 20 (coming from the never-audited sentinel −999) and next at
tick 176 — exactly the cooldown apart — and the theorem applied to these two
events yields `20 + 156 ≤ 176`. -/
theorem audit_cooldown_156_check :
    lastAuditAt mCool ordsOne 177 0 = some 176 ∧
    lastAuditAt mCool ordsOne 21 0 = some 20 ∧
    20 + 156 ≤ 176 :=
  ⟨by decide, by decide,
   audit_cooldown_156 mCool ordsOne 0 20 176 rfl (by decide) (by decide)
     (by decide) (by decide) (by decide) (by decide)⟩

/-! ## Claim C10: reachable agent phases never raise -/

/-- The construction invariant behind C10: the network has one neighborhood
per agent, every neighboring cell is populated with valid agents (the
capacity-1 `Network` holds exactly one agent per cell), and nobody's
`last_audit_step` is at or beyond the current step count (at construction it
is the −999 sentinel and the counter is 0). -/
def InvM (m : Model) : Prop :=
  m.adj.length = m.agents.length ∧
  (∀ nb ∈ m.adj, ∀ cell ∈ nb, cell ≠ [] ∧ ∀ j ∈ cell, j < m.agents.length) ∧
  (∀ a ∈ m.agents, a.last_audit_step < (m.step_count : ℤ))

instance (m : Model) : Decidable (InvM m) := by
  unfold InvM
  infer_instance

/-- States reachable from `m0` by successful `model.step()` calls, under any
execution orders mesa's shuffle may produce. -/
inductive Reach : Model → Model → Prop
  | refl (m : Model) : Reach m m
  | step {m0 m m' : Model} (ord : List ℕ) :
      Reach m0 m → modelStep m ord = Except.ok m' → Reach m0 m'

lemma lastAuditIdx_le_of_inv {m : Model} (hInv : InvM m) (i : ℕ) :
    lastAuditIdx m.agents i < (m.step_count : ℤ) := by
  unfold lastAuditIdx
  cases hg : m.agents[i]? with
  | none =>
    have : ((-999 : ℤ)) < 0 := by norm_num
    calc (-999 : ℤ) < 0 := this
      _ ≤ (m.step_count : ℤ) := Int.ofNat_nonneg _
  | some a =>
    obtain ⟨hlt, hval⟩ := List.getElem?_eq_some.mp hg
    exact hval ▸ hInv.2.2 (m.agents[i]) (List.getElem_mem hlt)

/-- `modelStep` preserves the invariant. -/
lemma modelStep_preserves_inv {m m' : Model} {ord : List ℕ}
    (h : modelStep m ord = Except.ok m') (hInv : InvM m) : InvM m' := by
  obtain ⟨hsc, hlen, hadj, hdich⟩ := modelStep_ok_core h
  refine ⟨by rw [hadj, hlen, hInv.1], ?_, ?_⟩
  · rw [hadj, hlen]
    exact hInv.2.1
  · intro a ha
    obtain ⟨i, hi, hgi⟩ := List.mem_iff_getElem.mp ha
    have hval : lastAuditIdx m'.agents i = a.last_audit_step := by
      unfold lastAuditIdx
      rw [List.getElem?_eq_getElem hi, hgi]
    rcases hdich i with hd | ⟨hd, -⟩
    · rw [hval] at hd
      rw [hsc]
      calc a.last_audit_step = lastAuditIdx m.agents i := hd
        _ < (m.step_count : ℤ) := lastAuditIdx_le_of_inv hInv i
        _ ≤ ((m.step_count + 1 : ℕ) : ℤ) := by exact_mod_cast Nat.le_succ _
    · rw [hval] at hd
      rw [hsc, hd]
      exact_mod_cast Nat.lt_succ_self _

lemma reach_inv {m0 m : Model} (hR : Reach m0 m) (hInv : InvM m0) : InvM m := by
  induction hR with
  | refl => exact hInv
  | step ord hr hs ih => exact modelStep_preserves_inv hs ih

/-- The neighbor loop of `communicate` cannot raise when every neighboring
cell is populated with valid agents and no `last_audit_step` is in the
future: the `math.log` branch needs `last_audit_step - step_count > 48` and
the bomb-crater test needs it to equal 1, both impossible. -/
lemma commLoop_ok {agents : List SMEAgent} {ctx : StepCtx}
    (hlast : ∀ i, lastAuditIdx agents i ≤ (ctx.step_count : ℤ)) :
    ∀ (cells : List (List ℕ)) (acc : ℚ) (rng : Rng),
      (∀ cell ∈ cells, cell ≠ [] ∧ ∀ j ∈ cell, j < agents.length) →
      ∃ res, commLoop agents ctx cells acc rng = Except.ok res := by
  intro cells
  induction cells with
  | nil => intro acc rng hcells; exact ⟨(acc, rng), rfl⟩
  | cons cell rest ih =>
    intro acc rng hcells
    obtain ⟨hne, hval⟩ := hcells cell (List.mem_cons_self _ _)
    obtain ⟨j, tail, rfl⟩ := List.exists_cons_of_ne_nil hne
    have hj : j < agents.length := hval j (List.mem_cons_self _ _)
    obtain ⟨communicator, hcj⟩ :
        ∃ c, agents[j]? = some c := ⟨agents[j], List.getElem?_eq_getElem hj⟩
    have hrest : ∀ cell ∈ rest, cell ≠ [] ∧ ∀ j ∈ cell, j < agents.length :=
      fun c hc => hcells c (List.mem_cons_of_mem _ hc)
    have ht : communicator.last_audit_step - (ctx.step_count : ℤ) ≤ 0 := by
      have := hlast j
      rw [lastAuditIdx_of_getElem hcj] at this
      omega
    unfold commLoop
    dsimp only
    rw [hcj]
    dsimp only
    rw [if_neg (by omega), if_neg (by omega)]
    rcases hnext : rng.next with ⟨d1, rng1⟩
    dsimp only
    by_cases hd1 : d1 < ((52 : ℚ) - (ctx.current_week : ℚ)) / 52
    · rw [if_pos hd1]
      exact ih _ rng1 hrest
    · rw [if_neg hd1]
      rcases hnext2 : rng1.next with ⟨d2, rng2⟩
      dsimp only
      by_cases hd2 : d2 < 1/52
      · rw [if_pos hd2]
        exact ih _ rng2 hrest
      · rw [if_neg hd2]
        exact ih acc rng2 hrest

/-- `SMEAgent.step` cannot raise when the urgency flag is down (as the model
phase always leaves it) and the communicate loop is safe. -/
lemma stepAgent_ok {a : SMEAgent} {ctx : StepCtx} {agents : List SMEAgent}
    {cells : List (List ℕ)} {rng : Rng}
    (hurg : ctx.is_high_urgency_week = false)
    (hlast : ∀ i, lastAuditIdx agents i ≤ (ctx.step_count : ℤ))
    (hcells : ∀ cell ∈ cells, cell ≠ [] ∧ ∀ j ∈ cell, j < agents.length) :
    ∃ res, stepAgent a ctx agents cells rng = Except.ok res := by
  obtain ⟨⟨ic, rng1⟩, hc⟩ := commLoop_ok hlast cells
    (if (ctx.step_count : ℤ) - a.last_audit_step = 1 then 0 - 1/2 else 0) rng hcells
  unfold stepAgent communicateFn
  rw [hc]
  dsimp only
  rw [if_neg (by rw [hurg]; exact Bool.false_ne_true)]
  exact ⟨_, rfl⟩

lemma agentPhaseGo_ok {ctx : StepCtx} {adj : List (List (List ℕ))}
    (hurg : ctx.is_high_urgency_week = false) :
    ∀ (ord : List ℕ) (agents : List SMEAgent) (rng : Rng),
      (∀ j ∈ ord, j < agents.length) →
      adj.length = agents.length →
      (∀ nb ∈ adj, ∀ cell ∈ nb, cell ≠ [] ∧ ∀ j ∈ cell, j < agents.length) →
      (∀ i, lastAuditIdx agents i ≤ (ctx.step_count : ℤ)) →
      ∃ res, agentPhaseGo ctx adj ord agents rng = Except.ok res := by
  intro ord
  induction ord with
  | nil => intro agents rng _ _ _ _; exact ⟨(agents, rng), rfl⟩
  | cons i rest ih =>
    intro agents rng hord hadjlen hadj hlast
    have hi : i < agents.length := hord i (List.mem_cons_self _ _)
    have hgi : agents[i]? = some agents[i] := List.getElem?_eq_getElem hi
    have hcellsi : ∀ cell ∈ adj.getD i [], cell ≠ [] ∧ ∀ j ∈ cell, j < agents.length := by
      intro cell hcell
      have hiadj : i < adj.length := by rw [hadjlen]; exact hi
      rw [List.getD_eq_getElem?_getD, List.getElem?_eq_getElem hiadj] at hcell
      exact hadj adj[i] (List.getElem_mem hiadj) cell hcell
    obtain ⟨⟨a1, rngx⟩, hs⟩ := @stepAgent_ok agents[i] ctx agents
      (adj.getD i []) rng hurg hlast hcellsi
    have hlast' : ∀ k, lastAuditIdx (agents.set i a1) k ≤ (ctx.step_count : ℤ) := by
      intro k
      rw [lastAuditIdx_set]
      by_cases hc : k = i ∧ i < agents.length
      · rw [if_pos hc, (stepAgent_ok_fields hs).2.1]
        have := hlast i
        rw [lastAuditIdx_of_getElem hgi] at this
        exact this
      · rw [if_neg hc]
        exact hlast k
    obtain ⟨res, hres⟩ := ih (agents.set i a1) rngx
      (by intro j hj; rw [List.length_set]; exact hord j (List.mem_cons_of_mem _ hj))
      (by rw [List.length_set]; exact hadjlen)
      (by intro nb hnb cell hcell
          obtain ⟨h1, h2⟩ := hadj nb hnb cell hcell
          exact ⟨h1, fun j hj => by rw [List.length_set]; exact h2 j hj⟩)
      hlast'
    refine ⟨res, ?_⟩
    unfold agentPhaseGo
    rw [hgi]
    dsimp only
    rw [hs]
    exact hres

/-- C10 (confirmed): on every state reachable from a well-formed constructed
model, a tick that reaches the agent phase completes without raising: the
high-urgency branch that would multiply the never-initialized
`comm_sensitivity` is unreachable (the model resets the flag to `False`
every tick and never sets it), the `math.log` branch (with `math` never
imported) is unreachable because no `last_audit_step` exceeds the step
count, and `neighbor.agents[0]` is always defined because every network
cell holds exactly one agent. -/
theorem reachable_agent_steps_never_raise (m0 m : Model) (ord : List ℕ)
    (hInv : InvM m0) (hR : Reach m0 m)
    (hord : ∀ j ∈ ord, j < m.agents.length)
    (hpre : ((schedPhase m).bind auditPhase).isOk = true) :
    ∃ m', modelStep m ord = Except.ok m' := by
  have hInvm : InvM m := reach_inv hR hInv
  obtain ⟨m1, h1, m2, h2⟩ : ∃ m1, schedPhase m = Except.ok m1 ∧
      ∃ m2, auditPhase m1 = Except.ok m2 := by
    cases hs : schedPhase m with
    | error e =>
      rw [hs] at hpre
      dsimp only [Except.bind] at hpre
      exact absurd hpre (by simp [Except.isOk, Except.toBool])
    | ok m1 =>
      rw [hs] at hpre
      dsimp only [Except.bind] at hpre
      cases ha : auditPhase m1 with
      | error e =>
        rw [ha] at hpre
        exact absurd hpre (by simp [Except.isOk, Except.toBool])
      | ok m2 => exact ⟨m1, rfl, m2, ha⟩
  obtain ⟨ws, cc, tc, hm1⟩ := schedPhase_shape h1
  obtain ⟨ag2, rng2, c2, ta2, hm2, hlen2, hdich2⟩ := auditPhase_shape h2
  have hm2agents : m2.agents = ag2 := by rw [hm2]
  have hm2urg : m2.is_high_urgency_week = false := by rw [hm2, hm1]
  have hm2adj : m2.adj = m.adj := by rw [hm2, hm1]
  have hm2sc : m2.step_count = m.step_count := by rw [hm2, hm1]
  have hm1agents : m1.agents = m.agents := by rw [hm1]
  have hm1sc : m1.step_count = m.step_count := by rw [hm1]
  have hlen : m2.agents.length = m.agents.length := by
    rw [hm2agents]
    rw [hm1agents] at hlen2
    exact hlen2
  have hlastm2 : ∀ i, lastAuditIdx m2.agents i ≤ (m2.step_count : ℤ) := by
    intro i
    rw [hm2agents, hm2sc]
    rw [hm1agents, hm1sc] at hdich2
    rcases hdich2 i with hd | ⟨hd, -⟩
    · rw [hd]
      exact le_of_lt (lastAuditIdx_le_of_inv hInvm i)
    · rw [hd]
  obtain ⟨⟨ag3, rng3⟩, hgo⟩ := @agentPhaseGo_ok
      { current_commun := m2.current_commun, sector_warnings := m2.sector_warnings,
        decay_factor := m2.decay_factor,
        is_high_urgency_week := m2.is_high_urgency_week,
        step_count := m2.step_count, current_week := m2.current_week }
    m2.adj (by exact hm2urg) ord m2.agents m2.rng
    (by rw [hlen]; exact hord)
    (by rw [hm2adj, hlen]; exact hInvm.1)
    (by rw [hm2adj, hlen]; exact hInvm.2.1)
    hlastm2
  apply Exists.intro
  unfold modelStep
  rw [h1]
  dsimp only
  rw [h2]
  dsimp only
  unfold agentPhase
  dsimp only
  rw [hgo]

/-- Witness for C10: the two-agent model `mRun` (a constructed state, so
`Reach` by reflexivity and the invariant holds by evaluation) steps without
raising under the order `[0, 1]`. -/
theorem reachable_agent_steps_never_raise_check :
    ∃ m', modelStep mRun [0, 1] = Except.ok m' :=
  reachable_agent_steps_never_raise mRun mRun [0, 1] (by decide) (Reach.refl mRun)
    (by decide) (by decide)

/-! ## Claim C2 -/

/-- C2 (code bug): two runs of the same constructed model — same
configuration, same numpy seed, hence the identical state `mRun` — produce
different `DataCollector` metric sequences when mesa's internal (never
seeded) `Random` yields different per-tick execution orders: the agents
consume the shared seeded stream in execution order, so from tick 2 the
collected rows (including Mean Propensity) diverge. -/
theorem metric_sequences_depend_on_unseeded_order :
    (runFrom mRun ordsAA 2).map (fun m => m.collected) ≠
    (runFrom mRun ordsAB 2).map (fun m => m.collected) := by decide

/-! ## Claim C5 (counterexample part) -/

/-- C5 counterexample: permuting one tick's execution order changes the
post-tick population state — after the identical first tick, executing tick
2 in order (0,1) versus (1,0) yields different agent states, because the
pre-deadline-chatter draws of the one shared stream go to whichever agent
steps first. -/
theorem post_tick_state_depends_on_order_cex :
    (runFrom mRun ordsAA 2).map (fun m => m.agents) ≠
    (runFrom mRun ordsAB 2).map (fun m => m.agents) := by decide

end Belasting
